import Mathlib

/- Shallow embedding of a Telegram moderation bot (config store, TTL caches,
subscription checker, message-guard policy).  Strings are modelled as lists of
characters, monotonic clock readings as rationals, Telegram chat ids as
integers.  Each definition mirrors one function of the source. -/

abbrev Str := List Char

/-- Decimal representation of an integer, mirroring Python str(int). -/
def intStr (i : Int) : Str :=
  if i < 0 then '-' :: Nat.toDigits 10 i.natAbs else Nat.toDigits 10 i.natAbs

/-- Decimal digits of the absolute value, mirroring str(abs(int(x))). -/
def absStr (i : Int) : Str := Nat.toDigits 10 i.natAbs

/-- handlers.py `_is_target_chat`: match the current chat against the configured
target, accepting the short supergroup id and its "-100"-prefixed form. -/
def _is_target_chat (current_chat_id : Int) (target_chat_id : Option Int) : Bool :=
  match target_chat_id with
  | none => true
  | some t =>
    if current_chat_id = t then true
    else
      if ¬ ((absStr t).take 3 = ['1', '0', '0']) ∧
          absStr current_chat_id = '1' :: '0' :: '0' :: absStr t then true
      else if (absStr t).take 3 = ['1', '0', '0'] ∧
          (absStr t).drop 3 = absStr current_chat_id then true
      else false

/-- The supergroup-migration relation of the spec: the decimal digits of the
absolute value of `long` are "100" followed by those of `short`. -/
def migrated (short long : Int) : Prop :=
  absStr long = '1' :: '0' :: '0' :: absStr short

instance (s l : Int) : Decidable (migrated s l) := by
  unfold migrated; exact inferInstance

theorem migrated_ne {s l : Int} (h : migrated s l) : l ≠ s := by
  intro heq
  have hlen := congrArg List.length h
  rw [heq] at hlen
  simp [List.length_cons] at hlen
  omega

example : _is_target_chat (-10012) (some (-12)) = true := by decide
example : _is_target_chat (-12) (some (-10012)) = true := by decide
example : _is_target_chat (-1001001) (some (-1001)) = false := by decide
example : _is_target_chat (-1001) (some (-1001001)) = true := by decide
example : _is_target_chat 1 (some 2) = false := by decide

/-- C1 counterexample: short = -1001 and long = -1001001 are related by
supergroup migration ("1001001" = "100" ++ "1001"), yet with the short id as the
configured target and the long id as the current chat the guard rejects the
pair, so the claim's "returns true with the pair given in either order" fails. -/
theorem c1_alias_match_counterexample :
    migrated (-1001) (-1001001) ∧
    _is_target_chat (-1001001) (some (-1001)) = false := by
  constructor
  · decide
  · decide

/-- C1 (amended): for every migration-related pair (short, long), the guard
accepts the pair with the long id as configured target, and also with the short
id as configured target provided the digits of |short| do not themselves start
with "100"; every pair that is neither equal nor migration-related in either
role is rejected. -/
theorem c1_alias_match_amended (s l c t : Int)
    (hrel : migrated s l)
    (hns : (absStr s).take 3 ≠ ['1', '0', '0'])
    (hne : c ≠ t) (h1 : ¬ migrated c t) (h2 : ¬ migrated t c) :
    _is_target_chat s (some l) = true ∧
    _is_target_chat l (some s) = true ∧
    _is_target_chat c (some t) = false := by
  unfold migrated at hrel h1 h2
  refine ⟨?_, ?_, ?_⟩
  · simp only [_is_target_chat]
    by_cases hsl : s = l
    · simp [hsl]
    · rw [if_neg hsl]
      rw [if_neg, if_pos]
      · constructor
        · rw [hrel]; simp
        · rw [hrel]; simp
      · intro hcon
        exact hcon.1 (by rw [hrel]; simp)
  · simp only [_is_target_chat]
    by_cases hls : l = s
    · simp [hls]
    · rw [if_neg hls, if_pos]
      exact ⟨hns, hrel⟩
  · simp only [_is_target_chat]
    rw [if_neg hne, if_neg, if_neg]
    · intro hcon
      exact h1 (by
        have := List.take_append_drop 3 (absStr t)
        rw [hcon.2, hcon.1] at this
        exact this.symm)
    · intro hcon
      exact h2 hcon.2

/-- C1 witness: instantiates the amended alias theorem at short = -12,
long = -10012 and the unrelated pair (1, 2). -/
theorem c1_alias_match_witness :
    migrated (-12) (-10012) ∧
    (absStr (-12)).take 3 ≠ ['1', '0', '0'] ∧
    _is_target_chat (-12) (some (-10012)) = true ∧
    _is_target_chat (-10012) (some (-12)) = true ∧
    _is_target_chat 1 (some 2) = false := by
  refine ⟨by decide, by decide, ?_⟩
  have h := c1_alias_match_amended (-12) (-10012) 1 2
    (by decide) (by decide) (by decide) (by decide) (by decide)
  exact ⟨h.1, h.2.1, h.2.2⟩

/- Python string primitives used by storage.py. -/

/-- Python value.strip(): drop whitespace from both ends. -/
def pyStrip (l : Str) : Str :=
  ((l.dropWhile Char.isWhitespace).reverse.dropWhile Char.isWhitespace).reverse

/-- The t.me URL pattern stripped by `_normalize_identifier`. -/
def tme : Str := ['h', 't', 't', 'p', 's', ':', '/', '/', 't', '.', 'm', 'e', '/']

/-- Suffix strictly after the first occurrence of the t.me pattern, `none` when
the pattern does not occur. -/
def dropAfterFirst : Str → Option Str
  | [] => none
  | c :: rest =>
    if tme.isPrefixOf (c :: rest) then some ((c :: rest).drop tme.length)
    else dropAfterFirst rest

/-- Helper for value.split("https://t.me/")[-1]: repeatedly jump past the first
occurrence; the fuel (instantiated with the list length, which bounds the
number of occurrences since each step strictly shortens the list) makes the
recursion structural. -/
def lastPartAux : Nat → Str → Str
  | 0, l => l
  | fuel + 1, l =>
    match dropAfterFirst l with
    | none => l
    | some r => lastPartAux fuel r

/-- Python value.split("https://t.me/")[-1]: the part after the last
occurrence of the pattern. -/
def lastPart (l : Str) : Str := lastPartAux l.length l

/-- Python s.isdigit(): nonempty and made of digits only. -/
def pyIsDigit (l : Str) : Bool := !l.isEmpty && l.all Char.isDigit

/-- Python value.lstrip("-").isdigit(), the numeric-id test of storage.py. -/
def numericish (l : Str) : Bool := pyIsDigit (l.dropWhile (· == '-'))

/-- The strip / t.me-unwrap stage of storage.py `_normalize_identifier`. -/
def normBase (v : Str) : Str :=
  let v1 := pyStrip v
  if tme.isPrefixOf v1 then lastPart v1 else v1

/-- storage.py `_normalize_identifier`: strip, unwrap t.me links, pass numeric
ids through, prepend "@" to anything else not already starting with "@". -/
def _normalize_identifier (v : Str) : Str :=
  let v2 := normBase v
  if numericish v2 then v2
  else if v2.head? = some '@' then v2
  else '@' :: v2

example : _normalize_identifier " chan2 ".toList = "@chan2".toList := by decide
example : _normalize_identifier "https://t.me/chan2".toList = "@chan2".toList := by decide
example : _normalize_identifier "-100123".toList = "-100123".toList := by decide
example : _normalize_identifier "@x".toList = "@x".toList := by decide

/- Generic list lemmas used by the normalization proofs. -/

theorem head?_dropWhile_eq_false {α} {p : α → Bool} :
    ∀ {l : List α} {c : α}, (l.dropWhile p).head? = some c → p c = false := by
  intro l
  induction l with
  | nil => intro c h; simp at h
  | cons a as ih =>
    intro c h
    by_cases ha : p a
    · rw [List.dropWhile_cons_of_pos ha] at h
      exact ih h
    · rw [List.dropWhile_cons_of_neg ha] at h
      simp at h
      rw [← h]
      exact Bool.eq_false_iff.mpr ha

theorem dropWhile_head_neg {α} {p : α → Bool} {l : List α}
    (h : ∀ c, l.head? = some c → p c = false) : l.dropWhile p = l := by
  cases l with
  | nil => rfl
  | cons a as =>
    exact List.dropWhile_cons_of_neg (by simp [h a rfl])

theorem dropWhile_suffix_self {α} (p : α → Bool) (l : List α) :
    l.dropWhile p <:+ l := by
  induction l with
  | nil => exact List.suffix_refl []
  | cons a as ih =>
    by_cases ha : p a
    · rw [List.dropWhile_cons_of_pos ha]
      exact ih.trans (List.suffix_cons a as)
    · rw [List.dropWhile_cons_of_neg ha]

theorem getLast?_of_suffix {α} {s t : List α} (h : s <:+ t) (hne : s ≠ []) :
    t.getLast? = s.getLast? := by
  obtain ⟨u, rfl⟩ := h
  rw [List.getLast?_append]
  cases hg : s.getLast? with
  | none => exact absurd (List.getLast?_eq_none_iff.mp hg) hne
  | some d => rfl

theorem dropAfterFirst_suffix : ∀ {l r : Str}, dropAfterFirst l = some r → r <:+ l := by
  intro l
  induction l with
  | nil => intro r h; simp [dropAfterFirst] at h
  | cons c rest ih =>
    intro r h
    unfold dropAfterFirst at h
    by_cases hp : tme.isPrefixOf (c :: rest)
    · rw [if_pos hp] at h
      cases h
      exact List.drop_suffix _ _
    · rw [if_neg hp] at h
      exact (ih h).trans (List.suffix_cons c rest)

theorem lastPartAux_suffix : ∀ (fuel : Nat) (l : Str), lastPartAux fuel l <:+ l := by
  intro fuel
  induction fuel with
  | zero => intro l; exact List.suffix_refl l
  | succ n ih =>
    intro l
    unfold lastPartAux
    cases h : dropAfterFirst l with
    | none => exact List.suffix_refl l
    | some r => exact (ih r).trans (dropAfterFirst_suffix h)

theorem lastPart_suffix (l : Str) : lastPart l <:+ l := lastPartAux_suffix l.length l

/- Character classification facts. -/

theorem not_ws_of_isDigit {c : Char} (h : c.isDigit = true) : c.isWhitespace = false := by
  cases hw : c.isWhitespace with
  | false => rfl
  | true =>
    exfalso
    have hcases : c = ' ' ∨ c = '\t' ∨ c = '\r' ∨ c = '\n' := by
      have := hw
      simp [Char.isWhitespace] at this
      tauto
    rcases hcases with rfl | rfl | rfl | rfl <;> exact absurd h (by decide)

theorem tme_isPrefixOf_head {w : Str} (h : tme.isPrefixOf w = true) :
    w.head? = some 'h' := by
  cases w with
  | nil => simp [tme, List.isPrefixOf] at h
  | cons b bs =>
    simp [tme, List.isPrefixOf] at h
    rw [← h.1]
    rfl

/- Facts about pyStrip. -/

theorem pyStrip_head {v : Str} {c : Char} (h : (pyStrip v).head? = some c) :
    c.isWhitespace = false := by
  unfold pyStrip at h
  rw [List.head?_reverse] at h
  have hne : (((v.dropWhile Char.isWhitespace).reverse).dropWhile Char.isWhitespace) ≠ [] := by
    intro hnil
    rw [hnil] at h
    simp at h
  have hsfx := dropWhile_suffix_self Char.isWhitespace (v.dropWhile Char.isWhitespace).reverse
  have := getLast?_of_suffix hsfx hne
  rw [← this, List.getLast?_reverse] at h
  exact head?_dropWhile_eq_false h

theorem pyStrip_getLast {v : Str} {c : Char} (h : (pyStrip v).getLast? = some c) :
    c.isWhitespace = false := by
  unfold pyStrip at h
  rw [List.getLast?_reverse] at h
  exact head?_dropWhile_eq_false h

theorem pyStrip_eq_self {l : Str}
    (hh : ∀ c, l.head? = some c → c.isWhitespace = false)
    (hl : ∀ c, l.getLast? = some c → c.isWhitespace = false) :
    pyStrip l = l := by
  unfold pyStrip
  rw [dropWhile_head_neg hh]
  rw [dropWhile_head_neg (fun c hc => hl c (by rwa [List.head?_reverse] at hc))]
  exact List.reverse_reverse l

/- Facts about numericish values. -/

theorem numericish_head {w : Str} {c : Char} (hn : numericish w = true)
    (hc : w.head? = some c) : c = '-' ∨ c.isDigit = true := by
  cases w with
  | nil => simp at hc
  | cons a as =>
    have hca : c = a := by simpa using hc.symm
    subst hca
    by_cases hd : c = '-'
    · exact Or.inl hd
    · right
      unfold numericish pyIsDigit at hn
      rw [List.dropWhile_cons_of_neg (by simp [hd])] at hn
      simp [List.all_cons] at hn
      exact hn.1

theorem numericish_getLast {w : Str} {c : Char} (hn : numericish w = true)
    (hc : w.getLast? = some c) : c.isDigit = true := by
  unfold numericish pyIsDigit at hn
  rw [Bool.and_eq_true] at hn
  obtain ⟨hne, hall⟩ := hn
  have hne' : w.dropWhile (· == '-') ≠ [] := by
    intro hnil
    rw [hnil] at hne
    simp at hne
  have hlast := getLast?_of_suffix (dropWhile_suffix_self (· == '-') w) hne'
  rw [hlast] at hc
  have hmem := List.mem_of_getLast?_eq_some hc
  rw [List.all_eq_true] at hall
  exact hall c hmem

theorem numericish_not_ws {w : Str} (hn : numericish w = true) :
    (∀ c, w.head? = some c → c.isWhitespace = false) ∧
    (∀ c, w.getLast? = some c → c.isWhitespace = false) := by
  constructor
  · intro c hc
    rcases numericish_head hn hc with rfl | hdig
    · decide
    · exact not_ws_of_isDigit hdig
  · intro c hc
    exact not_ws_of_isDigit (numericish_getLast hn hc)

/- The normalization output is a fixed point of a further normalization. -/

theorem norm_fixpoint {w : Str}
    (hstrip : pyStrip w = w) (hpre : tme.isPrefixOf w = false)
    (hcls : numericish w = true ∨ w.head? = some '@') :
    _normalize_identifier w = w := by
  unfold _normalize_identifier normBase
  simp only [hstrip, hpre, Bool.false_eq_true, if_false]
  cases hn : numericish w with
  | true => simp
  | false =>
    rcases hcls with hcl | hcl
    · rw [hcl] at hn; cases hn
    · simp [hcl]

theorem not_tme_prefix_of_head {w : Str} {c : Char} (hc : w.head? = some c)
    (hne : c ≠ 'h') : tme.isPrefixOf w = false := by
  cases hp : tme.isPrefixOf w with
  | false => rfl
  | true =>
    exfalso
    have := tme_isPrefixOf_head hp
    rw [hc] at this
    exact hne (Option.some_inj.mp this.symm).symm

theorem normBase_getLast {v : Str} {c : Char} (hc : (normBase v).getLast? = some c) :
    c.isWhitespace = false := by
  unfold normBase at hc
  by_cases hp : tme.isPrefixOf (pyStrip v) = true
  · rw [if_pos hp] at hc
    have hne : lastPart (pyStrip v) ≠ [] := by
      intro hnil
      rw [hnil] at hc
      simp at hc
    have heq := getLast?_of_suffix (lastPart_suffix (pyStrip v)) hne
    exact pyStrip_getLast (by rw [heq]; exact hc)
  · rw [if_neg hp] at hc
    exact pyStrip_getLast hc

theorem normBase_no_tme {v : Str} (hn : numericish (normBase v) = true) :
    tme.isPrefixOf (normBase v) = false := by
  cases hh : (normBase v).head? with
  | none =>
    have : normBase v = [] := List.head?_eq_none_iff.mp hh
    rw [this]
    rfl
  | some c =>
    rcases numericish_head hn hh with rfl | hdig
    · exact not_tme_prefix_of_head hh (by decide)
    · exact not_tme_prefix_of_head hh (by
        intro hceq
        subst hceq
        exact absurd hdig (by decide))

/-- C9: the identifier normalization of storage.py is idempotent: normalizing
a second time returns the first result unchanged, for every input string. -/
theorem c9_normalize_idempotent (v : Str) :
    _normalize_identifier (_normalize_identifier v) = _normalize_identifier v := by
  cases hn : numericish (normBase v) with
  | true =>
    have hw : _normalize_identifier v = normBase v := by
      unfold _normalize_identifier
      simp [hn]
    rw [hw]
    apply norm_fixpoint
    · exact pyStrip_eq_self (numericish_not_ws hn).1 (numericish_not_ws hn).2
    · exact normBase_no_tme hn
    · exact Or.inl hn
  | false =>
    by_cases hat : (normBase v).head? = some '@'
    · have hw : _normalize_identifier v = normBase v := by
        unfold _normalize_identifier
        simp [hn, hat]
      rw [hw]
      apply norm_fixpoint
      · apply pyStrip_eq_self
        · intro c hc
          rw [hat] at hc
          rw [← Option.some_inj.mp hc]
          decide
        · exact fun c hc => normBase_getLast hc
      · exact not_tme_prefix_of_head hat (by decide)
      · exact Or.inr hat
    · have hw : _normalize_identifier v = '@' :: normBase v := by
        unfold _normalize_identifier
        simp [hn, hat]
      rw [hw]
      apply norm_fixpoint
      · apply pyStrip_eq_self
        · intro c hc
          rw [List.head?_cons] at hc
          rw [← Option.some_inj.mp hc]
          decide
        · intro c hc
          cases hsnil : normBase v with
          | nil =>
            rw [hsnil] at hc
            simp at hc
            rw [← hc]
            decide
          | cons x xs =>
            rw [hsnil, List.getLast?_cons_cons] at hc
            exact normBase_getLast (by rw [hsnil]; exact hc)
      · exact not_tme_prefix_of_head (List.head?_cons) (by decide)
      · exact Or.inr List.head?_cons

/- storage.py ConfigStore, modelled as pure state transformers over the parsed
file content.  A returned Bool mirrors the method's return value. -/

structure StoredConfig where
  chat_id : Option Int
  required_channels : List Str
deriving DecidableEq

/-- The normalization performed inline by ConfigStore.add_channel: strip, then
prepend "@" unless the value is numeric-ish or already starts with "@".  Unlike
`_normalize_identifier` it does not unwrap t.me links. -/
def addNorm (channel : Str) : Str :=
  let norm := pyStrip channel
  if ¬ numericish norm = true ∧ ¬ norm.head? = some '@' then '@' :: norm else norm

/-- storage.py ConfigStore.add_channel. -/
def ConfigStore.add_channel (cfg : StoredConfig) (channel : Str) : StoredConfig × Bool :=
  if (pyStrip channel).isEmpty then (cfg, false)
  else
    let norm := addNorm channel
    if norm ∈ cfg.required_channels then (cfg, false)
    else ({ cfg with required_channels := cfg.required_channels ++ [norm] }, true)

/-- storage.py ConfigStore.remove_channel: exact-match removal of the first
occurrence, no normalization. -/
def ConfigStore.remove_channel (cfg : StoredConfig) (value : Str) : StoredConfig × Bool :=
  if value ∈ cfg.required_channels then
    ({ cfg with required_channels := cfg.required_channels.erase value }, true)
  else (cfg, false)

/-- storage.py ConfigStore.set_chat_id. -/
def ConfigStore.set_chat_id (cfg : StoredConfig) (chat_id : Int) : StoredConfig :=
  { cfg with chat_id := some chat_id }

/-- storage.py ConfigStore.list_channels. -/
def ConfigStore.list_channels (cfg : StoredConfig) : List Str :=
  cfg.required_channels

example : (ConfigStore.add_channel ⟨none, []⟩ "chan2".toList).1.required_channels
    = ["@chan2".toList] := by decide
example : (ConfigStore.remove_channel ⟨none, ["@chan".toList]⟩ "chan".toList).2 = false := by
  decide

/-- C8: remove_channel removes an entry and reports true exactly when the raw
input string is literally an element of required_channels; otherwise the
configuration is left unchanged, and on success exactly one entry is removed. -/
theorem c8_remove_exact (cfg : StoredConfig) (v : Str) :
    ((ConfigStore.remove_channel cfg v).2 = true ↔ v ∈ cfg.required_channels) ∧
    ((ConfigStore.remove_channel cfg v).2 = false → (ConfigStore.remove_channel cfg v).1 = cfg) ∧
    (v ∈ cfg.required_channels →
      (ConfigStore.remove_channel cfg v).1.required_channels = cfg.required_channels.erase v ∧
      (ConfigStore.remove_channel cfg v).1.required_channels.length + 1
        = cfg.required_channels.length) := by
  unfold ConfigStore.remove_channel
  by_cases hv : v ∈ cfg.required_channels
  · rw [if_pos hv]
    refine ⟨by simp [hv], by simp, fun _ => ⟨rfl, ?_⟩⟩
    have hlen := List.length_erase_of_mem hv
    have hpos : 0 < cfg.required_channels.length := List.length_pos.mpr (List.ne_nil_of_mem hv)
    simp only [hlen]
    omega
  · rw [if_neg hv]
    exact ⟨by simp [hv], fun _ => rfl, fun h => absurd h hv⟩

/-- C8 witness: "chan" does not exactly match the stored "@chan", so removal
reports false and leaves the store unchanged, while the exact string removes. -/
theorem c8_remove_exact_witness :
    (ConfigStore.remove_channel ⟨none, ["@chan".toList]⟩ "chan".toList).1
      = (⟨none, ["@chan".toList]⟩ : StoredConfig) ∧
    (ConfigStore.remove_channel ⟨none, ["@chan".toList]⟩ "@chan".toList).1.required_channels
      = [] := by
  constructor
  · exact (c8_remove_exact ⟨none, ["@chan".toList]⟩ "chan".toList).2.1 (by decide)
  · have h := (c8_remove_exact ⟨none, ["@chan".toList]⟩ "@chan".toList).2.2 (by decide)
    rw [h.1]
    decide

theorem pyStrip_idem (v : Str) : pyStrip (pyStrip v) = pyStrip v :=
  pyStrip_eq_self (fun _ hc => pyStrip_head hc) (fun _ hc => pyStrip_getLast hc)

theorem no_tme_of_numericish {w : Str} (hn : numericish w = true) :
    tme.isPrefixOf w = false := by
  cases hh : w.head? with
  | none =>
    have : w = [] := List.head?_eq_none_iff.mp hh
    rw [this]
    rfl
  | some c =>
    rcases numericish_head hn hh with rfl | hdig
    · exact not_tme_prefix_of_head hh (by decide)
    · exact not_tme_prefix_of_head hh (by
        intro hceq
        subst hceq
        exact absurd hdig (by decide))

/-- The value appended by add_channel is a fixed point of the full
identifier normalization. -/
theorem addNorm_fixpoint (ch : Str) : _normalize_identifier (addNorm ch) = addNorm ch := by
  unfold addNorm
  by_cases hcond : ¬ numericish (pyStrip ch) = true ∧ ¬ (pyStrip ch).head? = some '@'
  · rw [if_pos hcond]
    apply norm_fixpoint
    · apply pyStrip_eq_self
      · intro c hc
        rw [List.head?_cons] at hc
        rw [← Option.some_inj.mp hc]
        decide
      · intro c hc
        cases hsnil : pyStrip ch with
        | nil =>
          rw [hsnil] at hc
          simp at hc
          rw [← hc]
          decide
        | cons x xs =>
          rw [hsnil, List.getLast?_cons_cons] at hc
          exact pyStrip_getLast (by rw [hsnil]; exact hc)
    · exact not_tme_prefix_of_head List.head?_cons (by decide)
    · exact Or.inr List.head?_cons
  · rw [if_neg hcond]
    have hcls : numericish (pyStrip ch) = true ∨ (pyStrip ch).head? = some '@' := by
      by_cases h1 : numericish (pyStrip ch) = true
      · exact Or.inl h1
      · by_cases h2 : (pyStrip ch).head? = some '@'
        · exact Or.inr h2
        · exact absurd ⟨h1, h2⟩ hcond
    refine norm_fixpoint (pyStrip_idem ch) ?_ hcls
    rcases hcls with hn | hat
    · exact no_tme_of_numericish hn
    · exact not_tme_prefix_of_head hat (by decide)

/- Sequences of store mutations, for the duplicate-freedom invariant. -/

inductive StoreOp where
  | setChat (chat_id : Int)
  | add (channel : Str)
  | remove (value : Str)

def applyStoreOp (cfg : StoredConfig) : StoreOp → StoredConfig
  | .setChat i => ConfigStore.set_chat_id cfg i
  | .add ch => (ConfigStore.add_channel cfg ch).1
  | .remove v => (ConfigStore.remove_channel cfg v).1

def applyStoreOps (cfg : StoredConfig) (ops : List StoreOp) : StoredConfig :=
  ops.foldl applyStoreOp cfg

/-- Channel lists whose entries are normalization fixed points, without
duplicates. -/
def normReady (cfg : StoredConfig) : Prop :=
  (∀ x ∈ cfg.required_channels, _normalize_identifier x = x) ∧
  cfg.required_channels.Nodup

theorem normReady_step {cfg : StoredConfig} (op : StoreOp) (h : normReady cfg) :
    normReady (applyStoreOp cfg op) := by
  obtain ⟨hfix, hnd⟩ := h
  cases op with
  | setChat i => exact ⟨hfix, hnd⟩
  | add ch =>
    show normReady (ConfigStore.add_channel cfg ch).1
    unfold ConfigStore.add_channel
    by_cases he : (pyStrip ch).isEmpty
    · rw [if_pos he]
      exact ⟨hfix, hnd⟩
    · rw [if_neg he]
      by_cases hm : addNorm ch ∈ cfg.required_channels
      · simp only [hm, if_true]
        exact ⟨hfix, hnd⟩
      · simp only [hm, if_false]
        constructor
        · intro x hx
          rcases List.mem_append.mp hx with hx | hx
          · exact hfix x hx
          · rw [List.mem_singleton.mp hx]
            exact addNorm_fixpoint ch
        · rw [List.nodup_append]
          exact ⟨hnd, List.nodup_singleton _, by simpa using hm⟩
  | remove v =>
    show normReady (ConfigStore.remove_channel cfg v).1
    unfold ConfigStore.remove_channel
    by_cases hm : v ∈ cfg.required_channels
    · rw [if_pos hm]
      constructor
      · exact fun x hx => hfix x (List.erase_subset _ _ hx)
      · exact hnd.erase v
    · rw [if_neg hm]
      exact ⟨hfix, hnd⟩

theorem normReady_ops {cfg : StoredConfig} (ops : List StoreOp) (h : normReady cfg) :
    normReady (applyStoreOps cfg ops) := by
  induction ops generalizing cfg with
  | nil => exact h
  | cons op rest ih => exact ih (normReady_step op h)

/-- C7 counterexample: "https://t.me/chan2" normalizes (per the repository's
identifier normalization) to "@chan2", which is already stored after
add_channel("chan2"); yet a second add_channel with that form returns true and
appends a distinct raw entry, since add_channel's inline normalization does not
unwrap t.me links. -/
theorem c7_add_channel_counterexample :
    _normalize_identifier "https://t.me/chan2".toList = "@chan2".toList ∧
    (ConfigStore.add_channel
        (ConfigStore.add_channel ⟨none, []⟩ "chan2".toList).1
        "https://t.me/chan2".toList).2 = true ∧
    (ConfigStore.add_channel
        (ConfigStore.add_channel ⟨none, []⟩ "chan2".toList).1
        "https://t.me/chan2".toList).1.required_channels
      = ["@chan2".toList, "@https://t.me/chan2".toList] := by
  refine ⟨by decide, by decide, by decide⟩

/-- C7 (amended): from a config whose channels are normalization fixed points
without duplicates and without "@chan2", add_channel("chan2") appends "@chan2"
and returns true; a second add_channel of any form whose add_channel-inline
normalization (strip and "@"-prepend, no t.me unwrapping) is "@chan2" returns
false and leaves the store unchanged; and after any sequence of store
operations the channel list has pairwise distinct normalized forms. -/
theorem c7_add_channel_amended (cfg : StoredConfig) (v : Str) (ops : List StoreOp)
    (hfix : ∀ x ∈ cfg.required_channels, _normalize_identifier x = x)
    (hnd : cfg.required_channels.Nodup)
    (hmem : "@chan2".toList ∉ cfg.required_channels)
    (hv : addNorm v = "@chan2".toList) :
    (ConfigStore.add_channel cfg "chan2".toList).2 = true ∧
    (ConfigStore.add_channel cfg "chan2".toList).1.required_channels
      = cfg.required_channels ++ ["@chan2".toList] ∧
    (ConfigStore.add_channel (ConfigStore.add_channel cfg "chan2".toList).1 v).2 = false ∧
    (ConfigStore.add_channel (ConfigStore.add_channel cfg "chan2".toList).1 v).1
      = (ConfigStore.add_channel cfg "chan2".toList).1 ∧
    (applyStoreOps cfg ops).required_channels.Pairwise
      (fun a b => _normalize_identifier a ≠ _normalize_identifier b) := by
  have hstrip : (pyStrip "chan2".toList).isEmpty = false := by decide
  have hnorm : addNorm "chan2".toList = "@chan2".toList := by decide
  have hfirst : ConfigStore.add_channel cfg "chan2".toList
      = ({ cfg with required_channels := cfg.required_channels ++ ["@chan2".toList] }, true) := by
    have hmem2 : ['@', 'c', 'h', 'a', 'n', '2'] ∉ cfg.required_channels := hmem
    unfold ConfigStore.add_channel
    rw [hstrip, hnorm]
    simp [hmem2]
  have hvne : (pyStrip v).isEmpty = false := by
    cases hP : pyStrip v with
    | nil =>
      exfalso
      unfold addNorm at hv
      rw [hP] at hv
      have : numericish ([] : Str) = false := by decide
      rw [if_pos (by exact ⟨by simp [this], by simp⟩)] at hv
      exact absurd hv (by decide)
    | cons x xs => rfl
  have hsecond : ConfigStore.add_channel
      { cfg with required_channels := cfg.required_channels ++ ["@chan2".toList] } v
      = ({ cfg with required_channels := cfg.required_channels ++ ["@chan2".toList] }, false) := by
    unfold ConfigStore.add_channel
    rw [hvne, hv]
    simp
  refine ⟨by rw [hfirst], by rw [hfirst], ?_, ?_, ?_⟩
  · rw [hfirst, hsecond]
  · rw [hfirst, hsecond]
  · have hready := normReady_ops ops ⟨hfix, hnd⟩
    exact hready.2.pairwise_of_forall_ne (fun a ha b hb hne => by
      intro hcon
      exact hne (by rw [← hready.1 a ha, ← hready.1 b hb, hcon]))

/-- C7 witness: instantiates the amended add_channel theorem on the empty
config, the re-add form " chan2 " and an operation sequence. -/
theorem c7_add_channel_witness :
    (ConfigStore.add_channel ⟨none, []⟩ "chan2".toList).2 = true ∧
    (ConfigStore.add_channel (ConfigStore.add_channel ⟨none, []⟩ "chan2".toList).1
        " chan2 ".toList).2 = false ∧
    (applyStoreOps ⟨none, []⟩
        [StoreOp.add "chan2".toList, StoreOp.add "@x".toList]).required_channels.Pairwise
      (fun a b => _normalize_identifier a ≠ _normalize_identifier b) := by
  have h := c7_add_channel_amended ⟨none, []⟩ " chan2 ".toList
    [StoreOp.add "chan2".toList, StoreOp.add "@x".toList]
    (by intro x hx; simp at hx) (by simp) (by simp) (by decide)
  exact ⟨h.1, h.2.2.1, h.2.2.2.2⟩

/- cache.py TTLMemoryCache, modelled as an association list from string keys
to expiry instants of the monotonic clock (rationals).  The Python dict keeps
at most one binding per key, so overwrite and pop are modelled by filtering
the key out. -/

abbrev Cache := List (Str × ℚ)

/-- cache.py TTLMemoryCache.set_until: bind the key to expiry now + ttl. -/
def TTLMemoryCache.set_until (c : Cache) (key : Str) (ttl_seconds : Int) (now : ℚ) : Cache :=
  c.filter (fun p => p.1 != key) ++ [(key, now + (ttl_seconds : ℚ))]

/-- cache.py TTLMemoryCache.contains: expired entries are popped lazily; the
returned cache is the state after the call. -/
def TTLMemoryCache.contains (c : Cache) (key : Str) (now : ℚ) : Cache × Bool :=
  match c.lookup key with
  | none => (c, false)
  | some exp => if exp < now then (c.filter (fun p => p.1 != key), false) else (c, true)

theorem lookup_filter_ne {c : Cache} {key : Str} :
    (c.filter (fun p => p.1 != key)).lookup key = none := by
  rw [List.lookup_eq_none_iff]
  intro p hp
  have h1 : p.1 ≠ key := bne_iff_ne.mp (List.mem_filter.mp hp).2
  exact bne_iff_ne.mpr (Ne.symm h1)

theorem lookup_set_until (c : Cache) (key : Str) (ttl : Int) (now : ℚ) :
    (TTLMemoryCache.set_until c key ttl now).lookup key = some (now + (ttl : ℚ)) := by
  unfold TTLMemoryCache.set_until
  rw [List.lookup_append, lookup_filter_ne]
  simp

/-- C6: set_until followed by an immediate contains is true; once more than ttl
seconds have passed the lookup reports false and lazily evicts the key, and an
insertion grows the map by at most one entry. -/
theorem c6_ttl_cache (c : Cache) (key : Str) (ttl : Int) (t0 now : ℚ)
    (httl : 0 < ttl) (hlate : t0 + (ttl : ℚ) < now) :
    (TTLMemoryCache.contains (TTLMemoryCache.set_until c key ttl t0) key t0).2 = true ∧
    (TTLMemoryCache.contains (TTLMemoryCache.set_until c key ttl t0) key now).2 = false ∧
    ((TTLMemoryCache.contains (TTLMemoryCache.set_until c key ttl t0) key now).1).lookup key
      = none ∧
    (TTLMemoryCache.set_until c key ttl t0).length ≤ c.length + 1 := by
  have hlook := lookup_set_until c key ttl t0
  refine ⟨?_, ?_, ?_, ?_⟩
  · unfold TTLMemoryCache.contains
    rw [hlook]
    have : ¬ (t0 + (ttl : ℚ) < t0) := by
      have : (0 : ℚ) < (ttl : ℚ) := by exact_mod_cast httl
      linarith
    simp [this]
  · unfold TTLMemoryCache.contains
    rw [hlook]
    simp [hlate]
  · unfold TTLMemoryCache.contains
    rw [hlook]
    simp only [hlate, if_true]
    exact lookup_filter_ne
  · unfold TTLMemoryCache.set_until
    rw [List.length_append]
    have := List.length_filter_le (fun p : Str × ℚ => p.1 != key) c
    simpa using this

/-- C6 witness: instantiates the cache theorem at key "k", ttl 1, insertion
time 0 and lookup time 2. -/
theorem c6_ttl_cache_witness :
    (0 : Int) < 1 ∧ ((0 : ℚ) + ((1 : Int) : ℚ) < 2) ∧
    ((TTLMemoryCache.contains (TTLMemoryCache.set_until [] "k".toList 1 0) "k".toList 0).2 = true ∧
     (TTLMemoryCache.contains (TTLMemoryCache.set_until [] "k".toList 1 0) "k".toList 2).2 = false ∧
     ((TTLMemoryCache.contains (TTLMemoryCache.set_until [] "k".toList 1 0) "k".toList 2).1).lookup
        "k".toList = none ∧
     (TTLMemoryCache.set_until ([] : Cache) "k".toList 1 0).length ≤ ([] : Cache).length + 1) := by
  refine ⟨by norm_num, by norm_num, c6_ttl_cache [] "k".toList 1 0 2 (by norm_num) (by norm_num)⟩

/- subscription.py SubscriptionService.  The platform call get_chat_member is
an oracle from channel to reply; a reply is either a BadRequest/Forbidden
error or a member record with optional status and is_member fields. -/

inductive MemberResult where
  | err
  | ok (status : Option String) (is_member : Option Bool)
deriving DecidableEq

/-- The per-channel classification of subscription.py: errors fail, the
statuses creator / administrator / member satisfy, restricted satisfies only
with a truthy is_member flag, everything else fails. -/
def channelSatisfies : MemberResult → Bool
  | .err => false
  | .ok st im =>
      (st == some "creator" || st == some "administrator" || st == some "member")
        || (st == some "restricted" && im.getD false)

/-- The channel loop of is_fully_subscribed, also returning the list of
channels actually queried, in order. -/
def checkChannels (query : Str → MemberResult) : List Str → Bool × List Str
  | [] => (true, [])
  | ch :: rest =>
    match query ch with
    | .err => (false, [ch])
    | .ok st im =>
      if (st == some "creator" || st == some "administrator" || st == some "member")
          || (st == some "restricted" && im.getD false) then
        ((checkChannels query rest).1, ch :: (checkChannels query rest).2)
      else (false, [ch])

theorem checkChannels_cons (query : Str → MemberResult) (ch : Str) (rest : List Str) :
    checkChannels query (ch :: rest) =
      if channelSatisfies (query ch) then
        ((checkChannels query rest).1, ch :: (checkChannels query rest).2)
      else (false, [ch]) := by
  cases hq : query ch with
  | err => simp [checkChannels, channelSatisfies, hq]
  | ok st im => simp [checkChannels, channelSatisfies, hq]

structure SubscriptionService where
  channels : List Str
  ttl_seconds : Int
  store : Option StoredConfig

/-- The channel list the checker iterates: the store's list when a store is
attached and non-empty, the static list otherwise. -/
def SubscriptionService.effectiveChannels (svc : SubscriptionService) : List Str :=
  match svc.store with
  | some cfg =>
    if (ConfigStore.list_channels cfg).isEmpty then svc.channels
    else ConfigStore.list_channels cfg
  | none => svc.channels

/-- subscription.py SubscriptionService._cache_key. -/
def cacheKey (user_id : Int) : Str := "subscribed:".toList ++ intStr user_id

/-- subscription.py SubscriptionService.is_fully_subscribed, returning the
answer, the membership-cache state after the call, and the channels queried. -/
def SubscriptionService.is_fully_subscribed (svc : SubscriptionService) (cache : Cache)
    (user_id : Int) (query : Str → MemberResult) (now : ℚ) : Bool × Cache × List Str :=
  let key := cacheKey user_id
  let c1 := TTLMemoryCache.contains cache key now
  if c1.2 then (true, c1.1, [])
  else
    let r := checkChannels query svc.effectiveChannels
    if r.1 then (true, TTLMemoryCache.set_until c1.1 key svc.ttl_seconds now, r.2)
    else (false, c1.1, r.2)

theorem checkChannels_first_fail (query : Str → MemberResult) :
    ∀ (cs : List Str) (i : Nat) (hi : i < cs.length),
    (∀ (j : Nat) (hj : j < i), channelSatisfies (query (cs.get ⟨j, Nat.lt_trans hj hi⟩)) = true) →
    channelSatisfies (query (cs.get ⟨i, hi⟩)) = false →
    checkChannels query cs = (false, cs.take (i + 1)) := by
  intro cs
  induction cs with
  | nil =>
    intro i hi
    simp at hi
  | cons ch rest ih =>
    intro i hi hpre hfail
    cases i with
    | zero =>
      rw [checkChannels_cons]
      have hch : channelSatisfies (query ch) = false := hfail
      rw [hch]
      simp
    | succ n =>
      rw [checkChannels_cons]
      have hch : channelSatisfies (query ch) = true := hpre 0 (Nat.succ_pos n)
      rw [hch]
      have hrec := ih n (Nat.lt_of_succ_lt_succ hi)
        (fun j hj => hpre (j + 1) (Nat.succ_lt_succ hj)) hfail
      rw [hrec]
      simp

theorem checkChannels_all_pass (query : Str → MemberResult) :
    ∀ (cs : List Str), (∀ ch ∈ cs, channelSatisfies (query ch) = true) →
    checkChannels query cs = (true, cs) := by
  intro cs
  induction cs with
  | nil => intro _; rfl
  | cons ch rest ih =>
    intro h
    rw [checkChannels_cons, h ch (List.mem_cons_self ch rest)]
    rw [ih (fun c hc => h c (List.mem_cons_of_mem ch hc))]
    simp

/-- C2: starting from a cache miss, if the first non-satisfying channel of the
effective list is at position i (error reply or non-member status), the checker
answers false and has queried exactly the channels up to and including i. -/
theorem c2_fail_closed (svc : SubscriptionService) (cache : Cache) (user_id : Int)
    (query : Str → MemberResult) (now : ℚ) (i : Nat)
    (hmiss : (TTLMemoryCache.contains cache (cacheKey user_id) now).2 = false)
    (hi : i < svc.effectiveChannels.length)
    (hpre : ∀ (j : Nat) (hj : j < i),
      channelSatisfies (query (svc.effectiveChannels.get ⟨j, Nat.lt_trans hj hi⟩)) = true)
    (hfail : channelSatisfies (query (svc.effectiveChannels.get ⟨i, hi⟩)) = false) :
    (svc.is_fully_subscribed cache user_id query now).1 = false ∧
    (svc.is_fully_subscribed cache user_id query now).2.2
      = svc.effectiveChannels.take (i + 1) := by
  have hchk := checkChannels_first_fail query svc.effectiveChannels i hi hpre hfail
  unfold SubscriptionService.is_fully_subscribed
  simp only [hmiss, Bool.false_eq_true, if_false, hchk]
  simp

/-- Oracle for the C2 witness: channel a reports a member record, every other
channel raises BadRequest. -/
def c2Query : Str → MemberResult :=
  fun ch => if ch = "a".toList then .ok (some "member") none else .err

/-- Service configuration for the C2 witness: three static channels, no store. -/
def c2Svc : SubscriptionService :=
  ⟨["a".toList, "b".toList, "c".toList], 10, none⟩

/-- C2 witness: channels a, b, c where a reports member and b errors; the
checker stops after b with a false answer. -/
theorem c2_fail_closed_witness :
    (c2Svc.is_fully_subscribed [] 5 c2Query 0).1 = false ∧
    (c2Svc.is_fully_subscribed [] 5 c2Query 0).2.2 = ["a".toList, "b".toList] := by
  have hi : 1 < c2Svc.effectiveChannels.length := by decide
  have hpre : ∀ (j : Nat) (hj : j < 1),
      channelSatisfies (c2Query (c2Svc.effectiveChannels.get ⟨j, Nat.lt_trans hj hi⟩))
        = true := by
    intro j hj
    have hj0 : j = 0 := by omega
    subst hj0
    have hget : c2Svc.effectiveChannels.get ⟨0, Nat.lt_trans hj hi⟩ = "a".toList := rfl
    rw [hget]
    decide
  have hfail : channelSatisfies (c2Query (c2Svc.effectiveChannels.get ⟨1, hi⟩)) = false := by
    have hget : c2Svc.effectiveChannels.get ⟨1, hi⟩ = "b".toList := rfl
    rw [hget]
    decide
  have h := c2_fail_closed c2Svc [] 5 c2Query 0 1 (by decide) hi hpre hfail
  refine ⟨h.1, ?_⟩
  rw [h.2]
  decide

/-- C4: starting from a cache miss, if every effective channel reports a
satisfying status the checker answers true and binds the user's cache key to
expiry now + ttl; any later call within that TTL answers true from the cache,
with an arbitrary oracle and an empty queried-channel list. -/
theorem c4_all_pass_caches (svc : SubscriptionService) (cache : Cache) (user_id : Int)
    (query query2 : Str → MemberResult) (now now2 : ℚ)
    (hmiss : (TTLMemoryCache.contains cache (cacheKey user_id) now).2 = false)
    (hall : ∀ ch ∈ svc.effectiveChannels, channelSatisfies (query ch) = true)
    (httl : now2 ≤ now + (svc.ttl_seconds : ℚ)) :
    (svc.is_fully_subscribed cache user_id query now).1 = true ∧
    ((svc.is_fully_subscribed cache user_id query now).2.1).lookup (cacheKey user_id)
      = some (now + (svc.ttl_seconds : ℚ)) ∧
    (svc.is_fully_subscribed
        (svc.is_fully_subscribed cache user_id query now).2.1 user_id query2 now2).1
      = true ∧
    (svc.is_fully_subscribed
        (svc.is_fully_subscribed cache user_id query now).2.1 user_id query2 now2).2.2
      = [] := by
  have hchk := checkChannels_all_pass query svc.effectiveChannels hall
  have hfirst : svc.is_fully_subscribed cache user_id query now
      = (true, TTLMemoryCache.set_until
          (TTLMemoryCache.contains cache (cacheKey user_id) now).1
          (cacheKey user_id) svc.ttl_seconds now, svc.effectiveChannels) := by
    unfold SubscriptionService.is_fully_subscribed
    simp only [hmiss, Bool.false_eq_true, if_false, hchk]
    simp
  have hcontains : TTLMemoryCache.contains
      (TTLMemoryCache.set_until
        (TTLMemoryCache.contains cache (cacheKey user_id) now).1
        (cacheKey user_id) svc.ttl_seconds now)
      (cacheKey user_id) now2
      = (TTLMemoryCache.set_until
          (TTLMemoryCache.contains cache (cacheKey user_id) now).1
          (cacheKey user_id) svc.ttl_seconds now, true) := by
    unfold TTLMemoryCache.contains
    rw [lookup_set_until]
    have hnl : ¬ (now + (svc.ttl_seconds : ℚ) < now2) := not_lt.mpr httl
    simp [hnl]
  have hsecond : svc.is_fully_subscribed
      (TTLMemoryCache.set_until
        (TTLMemoryCache.contains cache (cacheKey user_id) now).1
        (cacheKey user_id) svc.ttl_seconds now) user_id query2 now2
      = (true, TTLMemoryCache.set_until
          (TTLMemoryCache.contains cache (cacheKey user_id) now).1
          (cacheKey user_id) svc.ttl_seconds now, []) := by
    simp [SubscriptionService.is_fully_subscribed, hcontains]
  rw [hfirst]
  refine ⟨rfl, lookup_set_until _ _ _ _, ?_, ?_⟩
  · show (svc.is_fully_subscribed
      (TTLMemoryCache.set_until
        (TTLMemoryCache.contains cache (cacheKey user_id) now).1
        (cacheKey user_id) svc.ttl_seconds now) user_id query2 now2).1 = true
    rw [hsecond]
  · show (svc.is_fully_subscribed
      (TTLMemoryCache.set_until
        (TTLMemoryCache.contains cache (cacheKey user_id) now).1
        (cacheKey user_id) svc.ttl_seconds now) user_id query2 now2).2.2 = []
    rw [hsecond]

/-- C4 witness: one channel reporting member; the second call happens within
the TTL against an all-error oracle and still answers true from the cache. -/
theorem c4_all_pass_caches_witness :
    ((⟨["a".toList], 10, none⟩ : SubscriptionService).is_fully_subscribed []
        5 (fun _ => .ok (some "member") none) 0).1 = true ∧
    ((⟨["a".toList], 10, none⟩ : SubscriptionService).is_fully_subscribed
        ((⟨["a".toList], 10, none⟩ : SubscriptionService).is_fully_subscribed []
          5 (fun _ => .ok (some "member") none) 0).2.1
        5 (fun _ => .err) 3).1 = true := by
  have h := c4_all_pass_caches (⟨["a".toList], 10, none⟩ : SubscriptionService) [] 5
    (fun _ => .ok (some "member") none) (fun _ => .err) 0 3
    (by decide)
    (by
      intro ch hch
      have hch2 : ch ∈ ["a".toList] := hch
      rw [List.mem_singleton] at hch2
      subst hch2
      decide)
    (by norm_num)
  exact ⟨h.1, h.2.2.1⟩

/-- C10 counterexample: a false-returning call is not free of cache effects:
with an expired entry for the caller present, the initial contains check
lazily evicts it, so the cache after a false answer differs from the cache
before the call. -/
theorem c10_frame_counterexample :
    ((⟨["c".toList], 10, none⟩ : SubscriptionService).is_fully_subscribed
        [(cacheKey 7, (0 : ℚ))] 7 (fun _ => .err) 1).1 = false ∧
    ((⟨["c".toList], 10, none⟩ : SubscriptionService).is_fully_subscribed
        [(cacheKey 7, (0 : ℚ))] 7 (fun _ => .err) 1).2.1
      ≠ [(cacheKey 7, (0 : ℚ))] := by
  constructor
  · decide
  · decide

/-- C10 (amended): a false-returning call never inserts into the membership
cache: the cache state after such a call is exactly the state left by the
initial contains check (unchanged but for lazy eviction of the caller's own
expired entry); in particular, with no binding for the caller present, a false
answer leaves the cache exactly as it was. -/
theorem c10_no_negative_caching (svc : SubscriptionService) (cache : Cache) (user_id : Int)
    (query : Str → MemberResult) (now : ℚ)
    (hfalse : (svc.is_fully_subscribed cache user_id query now).1 = false) :
    (svc.is_fully_subscribed cache user_id query now).2.1
      = (TTLMemoryCache.contains cache (cacheKey user_id) now).1 ∧
    (cache.lookup (cacheKey user_id) = none →
      (svc.is_fully_subscribed cache user_id query now).2.1 = cache) := by
  have hmain : (svc.is_fully_subscribed cache user_id query now).2.1
      = (TTLMemoryCache.contains cache (cacheKey user_id) now).1 := by
    unfold SubscriptionService.is_fully_subscribed at hfalse ⊢
    cases hc : (TTLMemoryCache.contains cache (cacheKey user_id) now).2 with
    | true => simp [hc] at hfalse
    | false =>
      simp only [hc, Bool.false_eq_true, if_false] at hfalse ⊢
      cases hr : (checkChannels query svc.effectiveChannels).1 with
      | true => simp [hr] at hfalse
      | false => simp [hr]
  refine ⟨hmain, fun hnone => ?_⟩
  rw [hmain]
  unfold TTLMemoryCache.contains
  rw [hnone]

/-- C10 witness: instantiates the no-negative-caching theorem on an empty
cache with an all-error oracle. -/
theorem c10_no_negative_caching_witness :
    ((⟨["c".toList], 10, none⟩ : SubscriptionService).is_fully_subscribed []
        7 (fun _ => .err) 1).2.1
      = (TTLMemoryCache.contains [] (cacheKey 7) 1).1 ∧
    ((⟨["c".toList], 10, none⟩ : SubscriptionService).is_fully_subscribed []
        7 (fun _ => .err) 1).2.1 = [] := by
  have h := c10_no_negative_caching (⟨["c".toList], 10, none⟩ : SubscriptionService) []
    7 (fun _ => .err) 1 (by decide)
  exact ⟨h.1, h.2 (by decide)⟩

/- cache.py TTLKVCache: key to (expiry, value), same dict modelling. -/

abbrev KVCache := List (Str × (ℚ × Nat))

/-- cache.py TTLKVCache.set. -/
def TTLKVCache.set (c : KVCache) (key : Str) (value : Nat) (ttl_seconds : Int) (now : ℚ) :
    KVCache :=
  c.filter (fun p => p.1 != key) ++ [(key, (now + (ttl_seconds : ℚ), value))]

/-- cache.py TTLKVCache.get, with lazy eviction; returns the state after the
call together with the value. -/
def TTLKVCache.get (c : KVCache) (key : Str) (now : ℚ) : KVCache × Option Nat :=
  match c.lookup key with
  | none => (c, none)
  | some (exp, v) =>
    if exp < now then (c.filter (fun p => p.1 != key), none) else (c, some v)

/-- cache.py TTLKVCache.delete. -/
def TTLKVCache.delete (c : KVCache) (key : Str) : KVCache :=
  c.filter (fun p => p.1 != key)

/- handlers.py guard_message, modelled over the policy-relevant state: the
module-level notice/welcomed/last-notice caches, the subscription service's
membership cache, and the stored config read through the store.  The incoming
message is (chat_id, user_id, user_is_bot); the oracle answers the membership
queries; reminderMsgId is the platform-assigned id of the sent reminder. -/

structure GuardSettings where
  required_channels : List Str
  cache_ttl_seconds : Int
  notify_ttl_seconds : Int
deriving DecidableEq

structure GuardState where
  notice : Cache
  welcomed : Cache
  lastNotice : KVCache
  subsCache : Cache
deriving DecidableEq

structure GuardResult where
  state : GuardState
  reminderSent : Bool
  greetingSent : Bool
  deletedIncoming : Bool
deriving DecidableEq

/-- The notice-dedup key f"notice:(chat.id):(user_id)". -/
def noticeKey (chat_id user_id : Int) : Str :=
  "notice:".toList ++ intStr chat_id ++ (':' :: intStr user_id)

/-- The welcome-dedup key f"welcomed:(chat.id):(user_id)". -/
def welcomedKey (chat_id user_id : Int) : Str :=
  "welcomed:".toList ++ intStr chat_id ++ (':' :: intStr user_id)

/-- handlers.py guard_message. -/
def guard_message (settings : GuardSettings) (cfg : StoredConfig) (st : GuardState)
    (chat_id user_id : Int) (user_is_bot : Bool) (query : Str → MemberResult)
    (reminderMsgId : Nat) (now : ℚ) : GuardResult :=
  if user_is_bot then ⟨st, false, false, false⟩
  else
    match cfg.chat_id with
    | none => ⟨st, false, false, false⟩
    | some target =>
      if _is_target_chat chat_id (some target) = false then ⟨st, false, false, false⟩
      else
        let wkey := welcomedKey chat_id user_id
        let w := TTLMemoryCache.contains st.welcomed wkey now
        let welcomed1 := if w.2 then w.1 else TTLMemoryCache.set_until w.1 wkey 604800 now
        let greeted := !w.2
        let svc : SubscriptionService :=
          ⟨settings.required_channels, settings.cache_ttl_seconds, some cfg⟩
        let sres := svc.is_fully_subscribed st.subsCache user_id query now
        let key := noticeKey chat_id user_id
        if sres.1 then
          let g := TTLKVCache.get st.lastNotice key now
          let last1 := match g.2 with
            | some _ => TTLKVCache.delete g.1 key
            | none => g.1
          ⟨⟨st.notice, welcomed1, last1, sres.2.1⟩, false, greeted, false⟩
        else
          let n := TTLMemoryCache.contains st.notice key now
          if n.2 then
            ⟨⟨n.1, welcomed1, st.lastNotice, sres.2.1⟩, false, greeted, true⟩
          else
            ⟨⟨TTLMemoryCache.set_until n.1 key settings.notify_ttl_seconds now,
              welcomed1, TTLKVCache.set st.lastNotice key reminderMsgId 3600 now,
              sres.2.1⟩, true, greeted, true⟩

/-- C3: if a guard-triggering message at time t1 sent a reminder, then a second
message from the same user in the same chat at any time t2 within the
notify-TTL window sends no reminder, whatever the oracle answers then. -/
theorem c3_reminder_dedup (settings : GuardSettings) (cfg : StoredConfig) (st : GuardState)
    (chat_id user_id : Int) (ub : Bool) (query1 query2 : Str → MemberResult)
    (m1 m2 : Nat) (t1 t2 : ℚ)
    (h1 : (guard_message settings cfg st chat_id user_id ub query1 m1 t1).reminderSent = true)
    (ht : t2 ≤ t1 + (settings.notify_ttl_seconds : ℚ)) :
    (guard_message settings cfg
        (guard_message settings cfg st chat_id user_id ub query1 m1 t1).state
        chat_id user_id ub query2 m2 t2).reminderSent = false := by
  by_cases hub : ub = true
  · simp [guard_message, hub] at h1
  cases hcid : cfg.chat_id with
  | none => simp [guard_message, hub, hcid] at h1
  | some target =>
  by_cases htc : _is_target_chat chat_id (some target) = false
  · simp [guard_message, hub, hcid, htc] at h1
  by_cases hs1 : ((⟨settings.required_channels, settings.cache_ttl_seconds, some cfg⟩ :
      SubscriptionService).is_fully_subscribed st.subsCache user_id query1 t1).1 = true
  · simp [guard_message, hub, hcid, htc, hs1] at h1
  by_cases hn1 : (TTLMemoryCache.contains st.notice (noticeKey chat_id user_id) t1).2 = true
  · simp [guard_message, hub, hcid, htc, hs1, hn1] at h1
  set r1 := guard_message settings cfg st chat_id user_id ub query1 m1 t1 with hr1
  have hstate : r1.state.notice
      = TTLMemoryCache.set_until
          (TTLMemoryCache.contains st.notice (noticeKey chat_id user_id) t1).1
          (noticeKey chat_id user_id) settings.notify_ttl_seconds t1 := by
    rw [hr1]
    simp [guard_message, hub, hcid, htc, hs1, hn1]
  by_cases hs2 : ((⟨settings.required_channels, settings.cache_ttl_seconds, some cfg⟩ :
      SubscriptionService).is_fully_subscribed r1.state.subsCache user_id query2 t2).1 = true
  · simp [guard_message, hub, hcid, htc, hs2]
  · have hcont : (TTLMemoryCache.contains r1.state.notice
        (noticeKey chat_id user_id) t2).2 = true := by
      rw [hstate]
      unfold TTLMemoryCache.contains
      rw [lookup_set_until]
      have hnl : ¬ (t1 + (settings.notify_ttl_seconds : ℚ) < t2) := not_lt.mpr ht
      simp [hnl]
    simp [guard_message, hub, hcid, htc, hs2, hcont]

/-- C3 witness: a non-subscribed user posts twice in the target chat at times
0 and 30 with notify ttl 60; the first run sends the reminder, the second is
suppressed. -/
theorem c3_reminder_dedup_witness :
    (guard_message ⟨["@c".toList], 10, 60⟩ ⟨some 5, ["@c".toList]⟩ ⟨[], [], [], []⟩
        5 9 false (fun _ => MemberResult.err) 1 0).reminderSent = true ∧
    (guard_message ⟨["@c".toList], 10, 60⟩ ⟨some 5, ["@c".toList]⟩
        (guard_message ⟨["@c".toList], 10, 60⟩ ⟨some 5, ["@c".toList]⟩ ⟨[], [], [], []⟩
          5 9 false (fun _ => MemberResult.err) 1 0).state
        5 9 false (fun _ => MemberResult.err) 2 30).reminderSent = false := by
  have hsent : (guard_message ⟨["@c".toList], 10, 60⟩ ⟨some 5, ["@c".toList]⟩
      ⟨[], [], [], []⟩ 5 9 false (fun _ => MemberResult.err) 1 0).reminderSent = true := by
    decide
  refine ⟨hsent, ?_⟩
  exact c3_reminder_dedup ⟨["@c".toList], 10, 60⟩ ⟨some 5, ["@c".toList]⟩ ⟨[], [], [], []⟩
    5 9 false (fun _ => MemberResult.err) (fun _ => MemberResult.err) 1 2 0 30
    hsent (by norm_num)

/- storage.py persistence.  File-system effects are modelled at the
granularity of single characters written, so that a crash between any two
steps is a prefix of the operation's step list.  ConfigStore._save writes the
whole JSON to a fresh temp file in the target directory and os.replace()s it
over the main file; StateService._save write_text()s the main file in place. -/

/-- A single-quoted JSON string (escaping is irrelevant to the claims). -/
def quoteStr (s : Str) : Str := '"' :: (s ++ ['"'])

def joinComma : List Str → Str
  | [] => []
  | [x] => x
  | x :: y :: xs => x ++ (',' :: ' ' :: joinComma (y :: xs))

def encodeOptInt : Option Int → Str
  | none => "null".toList
  | some i => intStr i

/-- The JSON serialization json.dump(asdict(cfg)) of a stored config. -/
def encodeConfig (cfg : StoredConfig) : Str :=
  "\x7b\"chat_id\": ".toList ++ encodeOptInt cfg.chat_id
    ++ ", \"required_channels\": [".toList
    ++ joinComma (cfg.required_channels.map quoteStr)
    ++ "]\x7d".toList

/-- Contents of the config path and of the temp file (none = absent). -/
structure FsState where
  main : Str
  tmp : Option Str
deriving DecidableEq

inductive FsOp where
  | createTmp
  | writeTmpChar (c : Char)
  | renameTmpOverMain
deriving DecidableEq

def applyFsOp (s : FsState) : FsOp → FsState
  | .createTmp => ⟨s.main, some []⟩
  | .writeTmpChar c => ⟨s.main, some ((s.tmp.getD []) ++ [c])⟩
  | .renameTmpOverMain =>
    match s.tmp with
    | some t => ⟨t, none⟩
    | none => s

def runFsOps (s : FsState) (ops : List FsOp) : FsState := ops.foldl applyFsOp s

/-- ConfigStore._save: mkstemp, write the full serialized config, os.replace
over the main path. -/
def saveOps (content : Str) : List FsOp :=
  FsOp.createTmp :: (content.map FsOp.writeTmpChar ++ [FsOp.renameTmpOverMain])

/-- File-system steps of ConfigStore.set_chat_id (always saves). -/
def setChatIdOps (cfg : StoredConfig) (chat_id : Int) : List FsOp :=
  saveOps (encodeConfig (ConfigStore.set_chat_id cfg chat_id))

/-- File-system steps of ConfigStore.add_channel (saves only on insertion). -/
def addChannelOps (cfg : StoredConfig) (channel : Str) : List FsOp :=
  if (ConfigStore.add_channel cfg channel).2 then
    saveOps (encodeConfig (ConfigStore.add_channel cfg channel).1)
  else []

/-- File-system steps of ConfigStore.remove_channel (saves only on removal). -/
def removeChannelOps (cfg : StoredConfig) (value : Str) : List FsOp :=
  if (ConfigStore.remove_channel cfg value).2 then
    saveOps (encodeConfig (ConfigStore.remove_channel cfg value).1)
  else []

theorem runFsOps_writes (old : Str) :
    ∀ (cs : List Char) (w : Str),
      runFsOps ⟨old, some w⟩ (cs.map FsOp.writeTmpChar) = ⟨old, some (w ++ cs)⟩ := by
  intro cs
  induction cs with
  | nil => intro w; simp [runFsOps]
  | cons c rest ih =>
    intro w
    simp only [List.map_cons, runFsOps, List.foldl_cons]
    have := ih (w ++ [c])
    simp [runFsOps] at this
    simpa [applyFsOp, List.append_assoc] using this

/-- Crash safety of the temp-file-and-rename save: after any prefix of the
steps the main path holds either the old content or the full new content. -/
theorem saveOps_crash_safe (old content : Str) (pre suf : List FsOp)
    (h : saveOps content = pre ++ suf) :
    (runFsOps ⟨old, none⟩ pre).main = old ∨
    (runFsOps ⟨old, none⟩ pre).main = content := by
  cases pre with
  | nil => left; rfl
  | cons p q =>
    unfold saveOps at h
    rw [List.cons_append] at h
    injection h with hp hq
    subst hp
    have hqpre : q <+: (content.map FsOp.writeTmpChar ++ [FsOp.renameTmpOverMain]) :=
      ⟨suf, hq.symm⟩
    rcases List.prefix_concat_iff.mp hqpre with hall | hwrites
    · right
      subst hall
      show (runFsOps (applyFsOp ⟨old, none⟩ FsOp.createTmp)
        (content.map FsOp.writeTmpChar ++ [FsOp.renameTmpOverMain])).main = content
      rw [show applyFsOp ⟨old, none⟩ FsOp.createTmp = ⟨old, some []⟩ from rfl]
      unfold runFsOps
      rw [List.foldl_append]
      have hw := runFsOps_writes old content []
      unfold runFsOps at hw
      rw [hw]
      rfl
    · left
      have htake := List.prefix_iff_eq_take.mp hwrites
      rw [← List.map_take] at htake
      show (runFsOps (applyFsOp ⟨old, none⟩ FsOp.createTmp) q).main = old
      rw [show applyFsOp ⟨old, none⟩ FsOp.createTmp = ⟨old, some []⟩ from rfl, htake]
      rw [runFsOps_writes old (content.take q.length) []]

/- storage.py StateService: _save writes the main file in place
(Path.write_text), modelled as a truncate followed by character writes. -/

inductive DirectOp where
  | truncateMain
  | writeMainChar (c : Char)
deriving DecidableEq

def applyDirectOp (s : FsState) : DirectOp → FsState
  | .truncateMain => ⟨[], s.tmp⟩
  | .writeMainChar c => ⟨s.main ++ [c], s.tmp⟩

def runDirectOps (s : FsState) (ops : List DirectOp) : FsState :=
  ops.foldl applyDirectOp s

/-- StateService._save: self._path.write_text(json.dumps(self._state)). -/
def stateServiceSaveOps (content : Str) : List DirectOp :=
  DirectOp.truncateMain :: content.map DirectOp.writeMainChar

/-- storage.py StateService.set_chat_id (updates the in-memory state, then
_save). -/
def StateService.set_chat_id (cfg : StoredConfig) (chat_id : Int) : StoredConfig :=
  { cfg with chat_id := some chat_id }

/-- File-system steps of StateService.set_chat_id. -/
def stateSetChatIdOps (cfg : StoredConfig) (chat_id : Int) : List DirectOp :=
  stateServiceSaveOps (encodeConfig (StateService.set_chat_id cfg chat_id))

/-- C5 counterexample: the repository's second store implementation,
StateService, saves by writing the config file in place; crashing right after
the truncation step of set_chat_id leaves the file empty: neither the old nor
the new JSON, i.e. a partially-written state. -/
theorem c5_atomic_save_counterexample :
    stateSetChatIdOps ⟨none, []⟩ 5
      = [DirectOp.truncateMain] ++ (stateSetChatIdOps ⟨none, []⟩ 5).tail ∧
    (runDirectOps ⟨encodeConfig ⟨none, []⟩, none⟩ [DirectOp.truncateMain]).main
      ≠ encodeConfig ⟨none, []⟩ ∧
    (runDirectOps ⟨encodeConfig ⟨none, []⟩, none⟩ [DirectOp.truncateMain]).main
      ≠ encodeConfig (StateService.set_chat_id ⟨none, []⟩ 5) := by
  refine ⟨by decide, by decide, by decide⟩

/-- C5 (amended): the three mutating operations of ConfigStore (set_chat_id,
add_channel, remove_channel) persist by writing the complete new JSON to a
temp file and atomically renaming it over the original, so after any prefix
of their file-system steps the config file holds either the old or the new
complete serialization — whereas StateService._save writes in place and lacks
this guarantee. -/
theorem c5_atomic_save_amended (cfg : StoredConfig) (i : Int) (ch v : Str)
    (pre1 suf1 pre2 suf2 pre3 suf3 : List FsOp)
    (h1 : setChatIdOps cfg i = pre1 ++ suf1)
    (h2 : addChannelOps cfg ch = pre2 ++ suf2)
    (h3 : removeChannelOps cfg v = pre3 ++ suf3) :
    ((runFsOps ⟨encodeConfig cfg, none⟩ pre1).main = encodeConfig cfg ∨
      (runFsOps ⟨encodeConfig cfg, none⟩ pre1).main
        = encodeConfig (ConfigStore.set_chat_id cfg i)) ∧
    ((runFsOps ⟨encodeConfig cfg, none⟩ pre2).main = encodeConfig cfg ∨
      (runFsOps ⟨encodeConfig cfg, none⟩ pre2).main
        = encodeConfig (ConfigStore.add_channel cfg ch).1) ∧
    ((runFsOps ⟨encodeConfig cfg, none⟩ pre3).main = encodeConfig cfg ∨
      (runFsOps ⟨encodeConfig cfg, none⟩ pre3).main
        = encodeConfig (ConfigStore.remove_channel cfg v).1) := by
  refine ⟨saveOps_crash_safe _ _ _ _ h1, ?_, ?_⟩
  · unfold addChannelOps at h2
    by_cases hb : (ConfigStore.add_channel cfg ch).2 = true
    · rw [if_pos hb] at h2
      exact saveOps_crash_safe _ _ _ _ h2
    · rw [if_neg hb] at h2
      have hpre : pre2 = [] := (List.append_eq_nil.mp h2.symm).1
      subst hpre
      left
      rfl
  · unfold removeChannelOps at h3
    by_cases hb : (ConfigStore.remove_channel cfg v).2 = true
    · rw [if_pos hb] at h3
      exact saveOps_crash_safe _ _ _ _ h3
    · rw [if_neg hb] at h3
      have hpre : pre3 = [] := (List.append_eq_nil.mp h3.symm).1
      subst hpre
      left
      rfl

/-- C5 witness: instantiates the atomic-save theorem on an empty config with
a crash point between the temp-file write and the rename of set_chat_id. -/
theorem c5_atomic_save_witness :
    setChatIdOps ⟨none, []⟩ 5
      = (setChatIdOps ⟨none, []⟩ 5).take 3 ++ (setChatIdOps ⟨none, []⟩ 5).drop 3 ∧
    ((runFsOps ⟨encodeConfig ⟨none, []⟩, none⟩ ((setChatIdOps ⟨none, []⟩ 5).take 3)).main
        = encodeConfig ⟨none, []⟩ ∨
      (runFsOps ⟨encodeConfig ⟨none, []⟩, none⟩ ((setChatIdOps ⟨none, []⟩ 5).take 3)).main
        = encodeConfig (ConfigStore.set_chat_id ⟨none, []⟩ 5)) := by
  constructor
  · exact (List.take_append_drop 3 (setChatIdOps ⟨none, []⟩ 5)).symm
  · have h := c5_atomic_save_amended ⟨none, []⟩ 5 "c".toList "c".toList
      ((setChatIdOps ⟨none, []⟩ 5).take 3) ((setChatIdOps ⟨none, []⟩ 5).drop 3)
      [] (addChannelOps ⟨none, []⟩ "c".toList)
      [] (removeChannelOps ⟨none, []⟩ "c".toList)
      (List.take_append_drop 3 (setChatIdOps ⟨none, []⟩ 5)).symm
      rfl rfl
    exact h.1
